import Mathlib

/-
Verification of the molecular-computing 3-SAT solver
(src/dna_sequence.py, src/molecular_tube.py, src/molecular_threeSAT_solver.py).

Shallow embedding conventions:
  * the 4-symbol alphabet is the inductive type `Base`;
  * a 3-symbol literal block (`random.choices(bases, k=3)` always yields
    length 3) is the triple type `Block`;
  * a molecule's sequence is a `List Base` (`Mol`);
  * `DNASequence` defines neither a custom equality nor a custom hash, so a
    Python `set` of such objects compares by object identity; every molecule
    inserted by the solver is a freshly constructed object, hence a tube is
    faithfully a list of the molecule sequences in insertion order (set
    iteration order affects no observable result below);
  * the unbounded `while True` retry loops of `_initialize_encodings` are
    embedded with an explicit candidate stream `Nat → Block` (the successive
    results of `random.choices`) and explicit fuel; divergence of the source
    loop is the statement that the embedded search returns `none` for every
    fuel value;
  * fallible constructors (`DNASequence.__init__`, `add_clause`) return
    `Except PyErr`, distinguishing Python's `KeyError` (raised by the dict
    lookup in `_generate_complementary_strand`) from `ValueError`.
-/

namespace ThreeSAT

set_option maxRecDepth 100000

/-- The 4-symbol alphabet {A, C, G, T} of the sequences. -/
inductive Base where
  | A
  | C
  | G
  | T
deriving DecidableEq, Fintype

/-- Watson-Crick pairing of a single symbol: the dict
`complement_pairs = {A: T, T: A, C: G, G: C}` of
`DNASequence._generate_complementary_strand`. -/
def complementBase : Base → Base
  | Base.A => Base.T
  | Base.T => Base.A
  | Base.C => Base.G
  | Base.G => Base.C

/-- A 3-symbol literal block (the solver draws blocks with
`random.choices(bases, k=3)`, always of length 3). -/
def Block : Type := Base × Base × Base

instance : DecidableEq Block := instDecidableEqProd

instance : Fintype Block := instFintypeProd Base (Base × Base)

/-- Position-wise complement of a block, as computed by
`DNASequence._generate_complementary_strand` on a length-3 string
(no reversal is performed by the source). -/
def complementB (b : Block) : Block :=
  (complementBase b.1, complementBase b.2.1, complementBase b.2.2)

/-- The block as a 3-element symbol list (a 3-character string). -/
def blockToList (b : Block) : List Base := [b.1, b.2.1, b.2.2]

/-- A molecule's sequence: an arbitrary-length string over the alphabet. -/
abbrev Mol : Type := List Base

instance : DecidableEq Mol := inferInstanceAs (DecidableEq (List Base))

/-- Python slice `s[pos : pos + 3]` for a nonnegative `pos`: drop `pos`
symbols, then take at most 3 (shorter or empty when the string ends early,
exactly as Python slicing behaves). -/
def seqSlice (s : Mol) (pos : Nat) : List Base := (s.drop pos).take 3

/-- `MolecularThreeSATSolver._are_sequences_similar`:
`seq1 == seq2 or _generate_complementary_strand(seq1) == seq2`. -/
def are_sequences_similar (s1 s2 : Block) : Bool :=
  decide (s1 = s2) || decide (complementB s1 = s2)

/-- Modelled from the spec: the reverse-complement of a block, i.e. the
complement read in reverse order.  This definition follows the spec's words
("one is the reverse-complement partner of the other"); the source never
reverses a strand, so this is the spec-side notion to compare against
`are_sequences_similar`. -/
def revComp (b : Block) : Block :=
  (complementBase b.2.2, complementBase b.2.1, complementBase b.1)

/-- `MolecularThreeSATSolver._process_clause`: keep exactly the molecules
for which some literal's block position `(abs(literal) - 1) * 3` carries that
literal's encoding block; `variable_encodings` is embedded as the function
`enc` from signed literals to blocks. -/
def process_clause (enc : Int → Block) (tube : List Mol) (clause : List Int) :
    List Mol :=
  tube.filter fun m =>
    clause.any fun l => decide (seqSlice m ((l.natAbs - 1) * 3) = blockToList (enc l))

/-- Claim C1: a molecule is in the tube returned by `process_clause` exactly
when it is in the input tube and at least one literal of the clause matches,
i.e. the 3-symbol substring at position `(natAbs l - 1) * 3` of the molecule
equals the encoding block of the signed literal `l`; molecules matching no
literal are dropped and no outside molecule appears. -/
theorem C1_process_clause_filter (enc : Int → Block) (tube : List Mol)
    (clause : List Int) (m : Mol) (hlen : clause.length = 3)
    (hvalid : ∀ l ∈ clause, l ≠ 0) :
    m ∈ process_clause enc tube clause ↔
      m ∈ tube ∧ ∃ l ∈ clause, seqSlice m ((l.natAbs - 1) * 3) = blockToList (enc l) := by
  simp [process_clause, List.mem_filter]

/-- Witness for C1 at a concrete tube, clause and molecule. -/
theorem C1_witness :
    [Base.A, Base.A, Base.A] ∈
        process_clause (fun l => if l = 1 then (Base.A, Base.A, Base.A)
          else (Base.C, Base.C, Base.C)) [[Base.A, Base.A, Base.A]] [1, 2, 3] ↔
      [Base.A, Base.A, Base.A] ∈ [[Base.A, Base.A, Base.A]] ∧
        ∃ l ∈ [(1 : Int), 2, 3],
          seqSlice [Base.A, Base.A, Base.A] ((l.natAbs - 1) * 3) =
            blockToList ((fun l => if l = 1 then (Base.A, Base.A, Base.A)
              else (Base.C, Base.C, Base.C)) l) :=
  C1_process_clause_filter
    (fun l => if l = 1 then (Base.A, Base.A, Base.A)
      else (Base.C, Base.C, Base.C))
    [[Base.A, Base.A, Base.A]] [1, 2, 3] [Base.A, Base.A, Base.A]
    (by decide) (by decide)

/-- Claim C9, counterexample to the claim as stated: `AAC` and `TTG` are
judged similar by `_are_sequences_similar` (the second is the position-wise
complement of the first), yet they are neither identical nor
reverse-complement partners of each other (the reverse-complement of `AAC`
is `GTT`, not `TTG`). -/
theorem C9_counterexample :
    are_sequences_similar (Base.A, Base.A, Base.C) (Base.T, Base.T, Base.G) = true ∧
      (Base.A, Base.A, Base.C) ≠ ((Base.T, Base.T, Base.G) : Block) ∧
      revComp (Base.A, Base.A, Base.C) ≠ ((Base.T, Base.T, Base.G) : Block) ∧
      revComp (Base.T, Base.T, Base.G) ≠ ((Base.A, Base.A, Base.C) : Block) := by
  decide

/-- Claim C9 as amended: the similarity predicate holds iff the two blocks are
identical or one is the position-wise complement (no reversal) of the other,
and the check is symmetric in its two arguments. -/
theorem C9_similar_iff_eq_or_complement :
    ∀ s1 s2 : Block,
      (are_sequences_similar s1 s2 = true ↔ s1 = s2 ∨ complementB s1 = s2) ∧
        are_sequences_similar s1 s2 = are_sequences_similar s2 s1 := by
  decide

/-- Python exceptions that the embedded code can raise. -/
inductive PyErr where
  | keyError : Char → PyErr
  | valueError : String → PyErr
deriving DecidableEq

/-- The dict `complement_pairs` of `DNASequence._generate_complementary_strand`
as a partial lookup over arbitrary characters: `none` models a `KeyError`. -/
def complement_pairs (c : Char) : Option Char :=
  if c = 'A' then some 'T'
  else if c = 'T' then some 'A'
  else if c = 'C' then some 'G'
  else if c = 'G' then some 'C'
  else none

/-- `DNASequence._generate_complementary_strand` over an arbitrary character
string: the join-generator looks every character up in `complement_pairs`
left to right and raises `KeyError` at the first character outside the
alphabet. -/
def generate_complementary_strand : List Char → Except PyErr (List Char)
  | [] => Except.ok []
  | c :: rest =>
    match complement_pairs c with
    | none => Except.error (PyErr.keyError c)
    | some d =>
      match generate_complementary_strand rest with
      | Except.error e => Except.error e
      | Except.ok ds => Except.ok (d :: ds)

/-- The body of `DNASequence.is_valid_sequence`: every character is in
`set('ACGT')`; on failure the method raises the `ValueError` below. -/
def is_valid_sequence_check (s : List Char) : Bool :=
  s.all fun c => c = 'A' || c = 'C' || c = 'G' || c = 'T'

/-- The state of a successfully constructed `DNASequence` object. -/
structure PyDNAObj where
  sequence : List Char
  complementary_strand : List Char
deriving DecidableEq

/-- `DNASequence.__init__`: it FIRST computes the complementary strand (which
raises `KeyError` on the first out-of-alphabet character) and only THEN runs
`is_valid_sequence` (whose `ValueError` is therefore unreachable from the
constructor). -/
def dnaSequence_init (s : List Char) : Except PyErr PyDNAObj :=
  match generate_complementary_strand s with
  | Except.error e => Except.error e
  | Except.ok comp =>
    if is_valid_sequence_check s then Except.ok ⟨s, comp⟩
    else Except.error (PyErr.valueError "Invalid DNA sequence. Only A, C, G, T allowed.")

/-- Recognizer for a `ValueError` outcome of a fallible computation. -/
def isValueError : Except PyErr PyDNAObj → Bool
  | Except.error (PyErr.valueError _) => true
  | _ => false

/-- Claim C7, evaluated at the failing input: constructing a sequence from
the string `AXG` raises `KeyError` on the character `X` (from the
complement-table lookup performed before validation), not the
`ValueError("Invalid DNA sequence...")` the claim announces; in particular
the outcome is not a `ValueError` at all. -/
theorem C7_init_keyError_not_valueError :
    dnaSequence_init ['A', 'X', 'G'] = Except.error (PyErr.keyError 'X') ∧
      isValueError (dnaSequence_init ['A', 'X', 'G']) = false := by
  exact ⟨rfl, rfl⟩

/-- `MolecularThreeSATSolver.add_clause`: reject a clause whose literal list
does not have exactly 3 elements, or containing a literal outside
`[-num_variables, num_variables]` or equal to 0; otherwise append it to
`self.clauses`.  The returned list is the new clause list; an error leaves
the clause list unchanged (the whole clause is rejected). -/
def add_clause (num_variables : Nat) (clauses : List (List Int))
    (literals : List Int) : Except PyErr (List (List Int)) :=
  if literals.length ≠ 3 then
    Except.error (PyErr.valueError "Each clause must contain exactly 3 literals")
  else if ¬ (∀ l ∈ literals, -(num_variables : Int) ≤ l ∧ l ≤ num_variables ∧ l ≠ 0) then
    Except.error (PyErr.valueError "Invalid literal value")
  else
    Except.ok (clauses ++ [literals])

/-- Claim C8: `add_clause` fails exactly when the literal count is not 3, or
some literal is 0, or some literal's absolute value exceeds the variable
count; and when it succeeds the sole effect is appending the clause (so a
failure leaves the clause list unchanged: no partial application). -/
theorem C8_add_clause_spec (num_variables : Nat) (clauses : List (List Int))
    (literals : List Int) :
    ((∃ e, add_clause num_variables clauses literals = Except.error e) ↔
        (literals.length ≠ 3 ∨ ∃ l ∈ literals, l = 0 ∨ num_variables < l.natAbs)) ∧
      ∀ r, add_clause num_variables clauses literals = Except.ok r →
        r = clauses ++ [literals] := by
  by_cases h3 : literals.length = 3
  · by_cases hall : ∀ l ∈ literals,
        -(num_variables : Int) ≤ l ∧ l ≤ num_variables ∧ l ≠ 0
    · have hok : add_clause num_variables clauses literals =
          Except.ok (clauses ++ [literals]) := by
        unfold add_clause
        rw [if_neg (fun hcon => hcon h3), if_neg (fun hcon => hcon hall)]
      refine ⟨?_, ?_⟩
      · rw [hok]
        constructor
        · rintro ⟨e, he⟩
          exact Except.noConfusion he
        · rintro (hbad | ⟨l, hl, hbad⟩)
          · exact absurd h3 hbad
          · obtain ⟨ha, hb, hc⟩ := hall l hl
            exact absurd hbad (by omega)
      · intro r hr
        rw [hok] at hr
        injection hr with h
        exact h.symm
    · have herr : add_clause num_variables clauses literals =
          Except.error (PyErr.valueError "Invalid literal value") := by
        unfold add_clause
        rw [if_neg (fun hcon => hcon h3), if_pos hall]
      refine ⟨?_, ?_⟩
      · rw [herr]
        constructor
        · intro _
          right
          by_contra hno
          push_neg at hno
          refine hall (fun l hl => ?_)
          have hcond := hno l hl
          omega
        · intro _
          exact ⟨_, rfl⟩
      · intro r hr
        rw [herr] at hr
        exact Except.noConfusion hr
  · have herr : add_clause num_variables clauses literals =
        Except.error (PyErr.valueError "Each clause must contain exactly 3 literals") := by
      unfold add_clause
      rw [if_pos h3]
    refine ⟨?_, ?_⟩
    · rw [herr]
      exact ⟨fun _ => Or.inl h3, fun _ => ⟨_, rfl⟩⟩
    · intro r hr
      rw [herr] at hr
      exact Except.noConfusion hr

/-- Witness for C8: a valid clause for 2 variables is appended, and a clause
containing 0 is rejected with an error. -/
theorem C8_witness :
    (([[1, 2, -1]] : List (List Int)) = [] ++ [[1, 2, -1]]) ∧
      ((∃ e, add_clause 2 [] [0, 1, 1] = Except.error e) ↔
        (([0, 1, 1] : List Int).length ≠ 3 ∨
          ∃ l ∈ ([0, 1, 1] : List Int), l = 0 ∨ 2 < l.natAbs)) :=
  ⟨(C8_add_clause_spec 2 [] [1, 2, -1]).2 [[1, 2, -1]] rfl,
   (C8_add_clause_spec 2 [] [0, 1, 1]).1⟩

/-- A `DNASequence` object as Python sees it inside a `set`: the class defines
neither a custom equality nor a custom hash, so two objects compare equal only
when they are the same object; `objId` stands for the object identity. -/
structure PyDNASequence where
  objId : Nat
  sequence : Mol
deriving DecidableEq

/-- `MolecularTube.add`: `self.molecules.add(molecule)` on the Python set of
`DNASequence` objects (identity-based membership). -/
def tubeAdd (molecules : Finset PyDNASequence) (m : PyDNASequence) :
    Finset PyDNASequence :=
  insert m molecules

/-- Claim C2, evaluated at the failing input: two distinct `DNASequence`
objects carrying the same symbols BOTH stay in the tube's set (size 2), since
`DNASequence` defines no symbols-based equality or hash; the claim announces
that the second add leaves the size at 1. -/
theorem C2_identity_set_keeps_duplicates :
    ((tubeAdd (tubeAdd ∅ ⟨0, [Base.A, Base.A, Base.A]⟩)
        ⟨1, [Base.A, Base.A, Base.A]⟩).card = 2) ∧
      (PyDNASequence.sequence ⟨0, [Base.A, Base.A, Base.A]⟩ =
        PyDNASequence.sequence ⟨1, [Base.A, Base.A, Base.A]⟩) := by
  constructor
  · rfl
  · rfl

/-- The tuples of `itertools.product([False, True], repeat=n)` in their
enumeration order: the leftmost coordinate varies slowest, `False` before
`True` — binary-counter order over variables 1..n. -/
def assignments : Nat → List (List Bool)
  | 0 => [[]]
  | n + 1 =>
    ((assignments n).map (fun a => false :: a)) ++
      ((assignments n).map (fun a => true :: a))

/-- The sequence-accumulation loop of `_generate_initial_tube`:
`for var, value in enumerate(assignment, 1): sequence +=
variable_encodings[var if value else -var]`, started at variable `v`. -/
def encodeFrom (enc : Int → Block) (v : Nat) : List Bool → Mol
  | [] => []
  | b :: rest =>
    blockToList (enc (if b then (v : Int) else -(v : Int))) ++
      encodeFrom enc (v + 1) rest

/-- `MolecularThreeSATSolver._generate_initial_tube`: one molecule per
boolean assignment, in enumeration order (each `DNASequence` is a fresh
object, so the tube's identity-based set holds all of them). -/
def generate_initial_tube (enc : Int → Block) (n : Nat) : List Mol :=
  (assignments n).map (encodeFrom enc 1)

/-- The clause loop of `MolecularThreeSATSolver.solve`: filter by each clause
in order and return `false` as soon as the tube becomes empty, `true` when
the clause list is exhausted. -/
def solveAux (enc : Int → Block) : List Mol → List (List Int) → Bool
  | _, [] => true
  | tube, c :: rest =>
    if (process_clause enc tube c).isEmpty then false
    else solveAux enc (process_clause enc tube c) rest

/-- The tube obtained by filtering `tube` through the clauses `cs` in order
(no early exit) — the reference fold used to state what `solveAux` inspects. -/
def filterClauses (enc : Int → Block) (tube : List Mol)
    (cs : List (List Int)) : List Mol :=
  cs.foldl (fun t c => process_clause enc t c) tube

/-- `MolecularThreeSATSolver.solve`: build the initial tube, then run the
clause loop. -/
def solver_solve (enc : Int → Block) (n : Nat) (clauses : List (List Int)) :
    Bool :=
  solveAux enc (generate_initial_tube enc n) clauses

lemma process_clause_nil_tube (enc : Int → Block) (c : List Int) :
    process_clause enc [] c = [] := rfl

lemma filterClauses_nil_tube (enc : Int → Block) :
    ∀ cs : List (List Int), filterClauses enc [] cs = [] := by
  intro cs
  induction cs with
  | nil => rfl
  | cons c rest ih =>
    show filterClauses enc (process_clause enc [] c) rest = []
    rw [process_clause_nil_tube]
    exact ih

lemma filterClauses_cons (enc : Int → Block) (tube : List Mol)
    (c : List Int) (cs : List (List Int)) :
    filterClauses enc tube (c :: cs) =
      filterClauses enc (process_clause enc tube c) cs := rfl

lemma solveAux_true_iff (enc : Int → Block) :
    ∀ (cs : List (List Int)) (tube : List Mol),
      solveAux enc tube cs = true ↔
        (cs = [] ∨ filterClauses enc tube cs ≠ []) := by
  intro cs
  induction cs with
  | nil =>
    intro tube
    simp [solveAux]
  | cons c rest ih =>
    intro tube
    rw [show solveAux enc tube (c :: rest) =
        (if (process_clause enc tube c).isEmpty then false
         else solveAux enc (process_clause enc tube c) rest) from rfl,
      filterClauses_cons]
    rcases hE : (process_clause enc tube c).isEmpty with hf | ht
    · rw [if_neg (by simp [hE])]
      have hne : process_clause enc tube c ≠ [] := by
        intro hnil
        rw [hnil] at hE
        exact Bool.noConfusion hE
      rw [ih (process_clause enc tube c)]
      cases rest with
      | nil =>
        simp [filterClauses, hne]
      | cons d ds =>
        simp
    · rw [if_pos (by simp [hE])]
      have hnil : process_clause enc tube c = [] := by
        cases hpc : process_clause enc tube c with
        | nil => rfl
        | cons x xs => rw [hpc] at hE; exact Bool.noConfusion hE
      rw [hnil, filterClauses_nil_tube]
      simp

lemma solveAux_shortcircuit (enc : Int → Block) :
    ∀ (cs1 : List (List Int)) (tube : List Mol) (c : List Int)
      (cs2 : List (List Int)),
      filterClauses enc tube (cs1 ++ [c]) = [] →
      solveAux enc tube (cs1 ++ c :: cs2) = false := by
  intro cs1
  induction cs1 with
  | nil =>
    intro tube c cs2 h
    have hpc : process_clause enc tube c = [] := by
      simpa [filterClauses] using h
    show (if (process_clause enc tube c).isEmpty then false
        else solveAux enc (process_clause enc tube c) cs2) = false
    rw [if_pos (by simp [hpc])]
  | cons d ds ih =>
    intro tube c cs2 h
    rw [List.cons_append, filterClauses_cons] at h
    show (if (process_clause enc tube d).isEmpty then false
        else solveAux enc (process_clause enc tube d) (ds ++ c :: cs2)) = false
    rcases hE : (process_clause enc tube d).isEmpty with hf | ht
    · rw [if_neg (by simp [hE])]
      exact ih (process_clause enc tube d) c cs2 h
    · rw [if_pos (by simp [hE])]

/-- Claim C4: as soon as filtering by some clause yields an empty tube, the
clause loop returns `false` no matter what clauses follow (they are never
able to influence the result); and the loop returns `true` exactly when the
clause list is empty or the tube surviving all clauses is non-empty. -/
theorem C4_solve_shortcircuit_and_verdict (enc : Int → Block) :
    (∀ (tube : List Mol) (cs1 : List (List Int)) (c : List Int)
        (cs2 : List (List Int)),
      filterClauses enc tube (cs1 ++ [c]) = [] →
      solveAux enc tube (cs1 ++ c :: cs2) = false) ∧
      ∀ (tube : List Mol) (cs : List (List Int)),
        solveAux enc tube cs = true ↔
          (cs = [] ∨ filterClauses enc tube cs ≠ []) :=
  ⟨fun tube cs1 c cs2 h => solveAux_shortcircuit enc cs1 tube c cs2 h,
   fun tube cs => solveAux_true_iff enc cs tube⟩

/-- Witness for C4: with an encoding table assigning `CCC` everywhere, the
single-molecule tube `AAA` is emptied by the clause `[1, 1, 1]` and the loop
answers `false`. -/
theorem C4_witness :
    solveAux (fun _ => (Base.C, Base.C, Base.C)) [[Base.A, Base.A, Base.A]]
      [[1, 1, 1]] = false :=
  (C4_solve_shortcircuit_and_verdict (fun _ => (Base.C, Base.C, Base.C))).1
    [[Base.A, Base.A, Base.A]] [] [1, 1, 1] [] (by decide)

lemma assignments_length : ∀ n : Nat, (assignments n).length = 2 ^ n := by
  intro n
  induction n with
  | zero => rfl
  | succ m ih =>
    show ((assignments m).map _ ++ (assignments m).map _).length = 2 ^ (m + 1)
    rw [List.length_append, List.length_map, List.length_map, ih, pow_succ]
    omega

/-- Claim C10: with an empty clause list the clause loop is never entered, so
`solve` returns `true`; the initial tube indeed holds `2 ^ n` molecules and
in particular is non-empty. -/
theorem C10_empty_formula_satisfiable (n : Nat) (enc : Int → Block)
    (hn : 1 ≤ n) :
    solver_solve enc n [] = true ∧
      (generate_initial_tube enc n).length = 2 ^ n ∧
      generate_initial_tube enc n ≠ [] := by
  refine ⟨rfl, ?_, ?_⟩
  · show ((assignments n).map (encodeFrom enc 1)).length = 2 ^ n
    rw [List.length_map, assignments_length]
  · intro hnil
    have hlen : (generate_initial_tube enc n).length = 2 ^ n := by
      show ((assignments n).map (encodeFrom enc 1)).length = 2 ^ n
      rw [List.length_map, assignments_length]
    rw [hnil] at hlen
    have hpos : 0 < 2 ^ n := Nat.pos_pow_of_pos n (by omega)
    simp at hlen
    omega

/-- Witness for C10 at one variable and a constant encoding table. -/
theorem C10_witness :
    solver_solve (fun _ => (Base.A, Base.A, Base.A)) 1 [] = true ∧
      (generate_initial_tube (fun _ => (Base.A, Base.A, Base.A)) 1).length = 2 ^ 1 ∧
      generate_initial_tube (fun _ => (Base.A, Base.A, Base.A)) 1 ≠ [] :=
  C10_empty_formula_satisfiable 1 (fun _ => (Base.A, Base.A, Base.A)) (by decide)

lemma mem_assignments : ∀ (n : Nat) (a : List Bool),
    a ∈ assignments n ↔ a.length = n := by
  intro n
  induction n with
  | zero =>
    intro a
    show a ∈ [[]] ↔ a.length = 0
    simp [List.length_eq_zero]
  | succ m ih =>
    intro a
    show a ∈ (assignments m).map _ ++ (assignments m).map _ ↔ a.length = m + 1
    rw [List.mem_append, List.mem_map, List.mem_map]
    constructor
    · rintro (⟨t, ht, rfl⟩ | ⟨t, ht, rfl⟩) <;>
        simp [(ih t).mp ht]
    · intro hlen
      cases a with
      | nil => simp at hlen
      | cons b t =>
        have htlen : t.length = m := by simpa using hlen
        cases b
        · exact Or.inl ⟨t, (ih t).mpr htlen, rfl⟩
        · exact Or.inr ⟨t, (ih t).mpr htlen, rfl⟩

lemma assignments_nodup : ∀ n : Nat, (assignments n).Nodup := by
  intro n
  induction n with
  | zero => simp [assignments]
  | succ m ih =>
    show ((assignments m).map _ ++ (assignments m).map _).Nodup
    refine List.Nodup.append ?_ ?_ ?_
    · exact ih.map fun x y hxy => by injection hxy
    · exact ih.map fun x y hxy => by injection hxy
    · intro a ha hb
      rw [List.mem_map] at ha hb
      obtain ⟨t1, _, rfl⟩ := ha
      obtain ⟨t2, _, heq⟩ := hb
      injection heq with hhead _
      exact Bool.noConfusion hhead

/-- The nonzero literals whose variable lies in 1..n, as a concrete list
(the keys of `variable_encodings`). -/
def litRange (n : Nat) : List Int :=
  ((List.range n).map fun k => ((k + 1 : Nat) : Int)) ++
    ((List.range n).map fun k => -((k + 1 : Nat) : Int))

lemma mem_litRange (n : Nat) (l : Int) :
    l ∈ litRange n ↔ l ≠ 0 ∧ l.natAbs ≤ n := by
  unfold litRange
  rw [List.mem_append, List.mem_map, List.mem_map]
  constructor
  · rintro (⟨k, hk, rfl⟩ | ⟨k, hk, rfl⟩) <;>
      · rw [List.mem_range] at hk
        constructor <;> omega
  · rintro ⟨h0, hle⟩
    rcases Int.natAbs_eq l with heq | heq
    · left
      refine ⟨l.natAbs - 1, ?_, ?_⟩
      · rw [List.mem_range]
        omega
      · omega
    · right
      refine ⟨l.natAbs - 1, ?_, ?_⟩
      · rw [List.mem_range]
        omega
      · omega

lemma blockToList_inj {b1 b2 : Block} (h : blockToList b1 = blockToList b2) :
    b1 = b2 := by
  obtain ⟨x1, y1, z1⟩ := b1
  obtain ⟨x2, y2, z2⟩ := b2
  simp [blockToList] at h
  obtain ⟨hx, hy, hz⟩ := h
  rw [hx, hy, hz]

lemma blockToList_length (b : Block) : (blockToList b).length = 3 := by
  obtain ⟨x, y, z⟩ := b
  rfl

lemma encodeFrom_length (enc : Int → Block) :
    ∀ (a : List Bool) (v : Nat), (encodeFrom enc v a).length = 3 * a.length := by
  intro a
  induction a with
  | nil => intro v; rfl
  | cons b rest ih =>
    intro v
    show (blockToList _ ++ encodeFrom enc (v + 1) rest).length = 3 * (rest.length + 1)
    rw [List.length_append, blockToList_length, ih (v + 1)]
    omega

lemma encodeFrom_inj (enc : Int → Block) (n : Nat)
    (hinj : ∀ l1 ∈ litRange n, ∀ l2 ∈ litRange n, enc l1 = enc l2 → l1 = l2) :
    ∀ (a b : List Bool) (v : Nat), 1 ≤ v → v + a.length ≤ n + 1 →
      a.length = b.length → encodeFrom enc v a = encodeFrom enc v b → a = b := by
  intro a
  induction a with
  | nil =>
    intro b v _ _ hlen _
    exact (List.length_eq_zero.mp hlen.symm).symm
  | cons ba as ih =>
    intro b v hv hle hlen henc
    cases b with
    | nil => simp at hlen
    | cons bb bs =>
      have hlen2 : as.length = bs.length := by simpa using hlen
      have hsplit :
          blockToList (enc (if ba then (v : Int) else -(v : Int))) =
            blockToList (enc (if bb then (v : Int) else -(v : Int))) ∧
          encodeFrom enc (v + 1) as = encodeFrom enc (v + 1) bs := by
        refine List.append_inj henc ?_
        rw [blockToList_length, blockToList_length]
      have hmem1 : (if ba then (v : Int) else -(v : Int)) ∈ litRange n := by
        rw [mem_litRange]
        have hvn : v ≤ n := by
          have := as.length
          simp at hle
          omega
        cases ba <;> simp <;> omega
      have hmem2 : (if bb then (v : Int) else -(v : Int)) ∈ litRange n := by
        rw [mem_litRange]
        have hvn : v ≤ n := by
          simp at hle
          omega
        cases bb <;> simp <;> omega
      have hlit := hinj _ hmem1 _ hmem2 (blockToList_inj hsplit.1)
      have hba : ba = bb := by
        cases ba <;> cases bb <;> simp at hlit <;> first | rfl | omega
      have htail : as = bs := by
        refine ih bs (v + 1) (by omega) (by simp at hle ⊢; omega) hlen2 ?_
        rw [← hba] at hsplit
        exact hsplit.2
      rw [hba, htail]

/-- Claim C3: given a collision-free encoding table (injective on the 2n
literals of variables 1..n), the initial tube holds exactly `2 ^ n` pairwise
distinct molecules, each of length `3 * n`, the encodings of exactly the
boolean assignments of the n variables in the deterministic enumeration
order of `assignments`. -/
theorem C3_initial_tube (n : Nat) (enc : Int → Block) (hn : 1 ≤ n)
    (hinj : ∀ l1 ∈ litRange n, ∀ l2 ∈ litRange n, enc l1 = enc l2 → l1 = l2) :
    (generate_initial_tube enc n).length = 2 ^ n ∧
      (generate_initial_tube enc n).Nodup ∧
      (∀ m ∈ generate_initial_tube enc n, m.length = 3 * n) ∧
      (∀ a : List Bool, a.length = n →
        encodeFrom enc 1 a ∈ generate_initial_tube enc n) ∧
      (∀ m ∈ generate_initial_tube enc n,
        ∃ a : List Bool, a.length = n ∧ m = encodeFrom enc 1 a) := by
  refine ⟨?_, ?_, ?_, ?_, ?_⟩
  · show ((assignments n).map (encodeFrom enc 1)).length = 2 ^ n
    rw [List.length_map, assignments_length]
  · refine List.Nodup.map_on ?_ (assignments_nodup n)
    intro x hx y hy hxy
    have hxlen : x.length = n := (mem_assignments n x).mp hx
    have hylen : y.length = n := (mem_assignments n y).mp hy
    exact encodeFrom_inj enc n hinj x y 1 (by omega) (by omega)
      (by omega) hxy
  · intro m hm
    rw [show generate_initial_tube enc n = (assignments n).map (encodeFrom enc 1)
        from rfl, List.mem_map] at hm
    obtain ⟨a, ha, rfl⟩ := hm
    rw [encodeFrom_length, (mem_assignments n a).mp ha]
  · intro a ha
    rw [show generate_initial_tube enc n = (assignments n).map (encodeFrom enc 1)
        from rfl, List.mem_map]
    exact ⟨a, (mem_assignments n a).mpr ha, rfl⟩
  · intro m hm
    rw [show generate_initial_tube enc n = (assignments n).map (encodeFrom enc 1)
        from rfl, List.mem_map] at hm
    obtain ⟨a, ha, rfl⟩ := hm
    exact ⟨a, (mem_assignments n a).mp ha, rfl⟩

/-- Witness for C3 at one variable with distinct blocks for the two
literals. -/
theorem C3_witness :
    (generate_initial_tube (fun l => if l = 1 then (Base.A, Base.A, Base.A)
        else (Base.C, Base.C, Base.C)) 1).length = 2 ^ 1 ∧
      (generate_initial_tube (fun l => if l = 1 then (Base.A, Base.A, Base.A)
        else (Base.C, Base.C, Base.C)) 1).Nodup ∧
      (∀ m ∈ generate_initial_tube (fun l => if l = 1 then (Base.A, Base.A, Base.A)
        else (Base.C, Base.C, Base.C)) 1, m.length = 3 * 1) ∧
      (∀ a : List Bool, a.length = 1 →
        encodeFrom (fun l => if l = 1 then (Base.A, Base.A, Base.A)
          else (Base.C, Base.C, Base.C)) 1 a ∈
          generate_initial_tube (fun l => if l = 1 then (Base.A, Base.A, Base.A)
            else (Base.C, Base.C, Base.C)) 1) ∧
      (∀ m ∈ generate_initial_tube (fun l => if l = 1 then (Base.A, Base.A, Base.A)
          else (Base.C, Base.C, Base.C)) 1,
        ∃ a : List Bool, a.length = 1 ∧
          m = encodeFrom (fun l => if l = 1 then (Base.A, Base.A, Base.A)
            else (Base.C, Base.C, Base.C)) 1 a) :=
  C3_initial_tube 1
    (fun l => if l = 1 then (Base.A, Base.A, Base.A)
      else (Base.C, Base.C, Base.C))
    (by decide) (by decide)

/-- `MolecularThreeSATSolver._is_valid_sequence`: a candidate block is valid
against the used-block set iff it is not in the set, its complement is not in
the set, and it is similar to no used block (the three sequential
early-return checks of the source). -/
def is_valid_sequence (seq : Block) (used : List Block) : Bool :=
  if seq ∈ used then false
  else if complementB seq ∈ used then false
  else if used.any (fun u => are_sequences_similar seq u) then false
  else true

/-- One `while True` retry loop of `_initialize_encodings`, embedded with an
explicit candidate stream (the successive `random.choices` draws) and fuel:
returns the first valid candidate at stream position at least `i`, together
with the next unread stream position, or `none` when the fuel runs out.  The
source loop diverges exactly when this returns `none` for every fuel. -/
def findBlockFuel : Nat → (Nat → Block) → Nat → List Block → Option (Block × Nat)
  | 0, _, _, _ => none
  | fuel + 1, stream, i, used =>
    if is_valid_sequence (stream i) used = true then some (stream i, i + 1)
    else findBlockFuel fuel stream (i + 1) used

/-- `MolecularThreeSATSolver._initialize_encodings` for the remaining `k`
variables: draw a positive block, then a negative block — BOTH validated
against the same `used` set, which is updated (with the two blocks and their
complements) only after the pair is fixed, exactly as in the source — and
recurse.  Returns the per-variable (positive, negative) block pairs in
variable order, or `none` when some search exhausts its fuel. -/
def initialize_encodings (fuel : Nat) (stream : Nat → Block) :
    Nat → Nat → List Block → Option (List (Block × Block))
  | 0, _, _ => some []
  | k + 1, i, used =>
    (findBlockFuel fuel stream i used).bind fun pi =>
      (findBlockFuel fuel stream pi.2 used).bind fun ni =>
        (initialize_encodings fuel stream k ni.2
            (pi.1 :: complementB pi.1 :: ni.1 :: complementB ni.1 :: used)).bind
          fun rest => some ((pi.1, ni.1) :: rest)

lemma findBlockFuel_some_valid (stream : Nat → Block) :
    ∀ (fuel i : Nat) (used : List Block) (b : Block) (j : Nat),
      findBlockFuel fuel stream i used = some (b, j) →
      is_valid_sequence b used = true := by
  intro fuel
  induction fuel with
  | zero =>
    intro i used b j h
    exact Option.noConfusion h
  | succ f ih =>
    intro i used b j h
    show is_valid_sequence b used = true
    by_cases hv : is_valid_sequence (stream i) used = true
    · have : some (stream i, i + 1) = some (b, j) := by
        rw [show findBlockFuel (f + 1) stream i used =
            (if is_valid_sequence (stream i) used = true
              then some (stream i, i + 1)
              else findBlockFuel f stream (i + 1) used) from rfl, if_pos hv] at h
        exact h
      injection this with hpair
      injection hpair with hb _
      rw [← hb]
      exact hv
    · rw [show findBlockFuel (f + 1) stream i used =
          (if is_valid_sequence (stream i) used = true
            then some (stream i, i + 1)
            else findBlockFuel f stream (i + 1) used) from rfl, if_neg hv] at h
      exact ih (i + 1) used b j h

lemma is_valid_sequence_not_mem {b : Block} {used : List Block}
    (h : is_valid_sequence b used = true) :
    b ∉ used ∧ complementB b ∉ used := by
  unfold is_valid_sequence at h
  by_cases hm : b ∈ used
  · rw [if_pos hm] at h
    exact Bool.noConfusion h
  · by_cases hc : complementB b ∈ used
    · rw [if_neg hm, if_pos hc] at h
      exact Bool.noConfusion h
    · exact ⟨hm, hc⟩

lemma complementB_ne_self : ∀ b : Block, complementB b ≠ b := by decide

lemma card_block : Fintype.card Block = 64 := rfl

lemma initialize_encodings_card (stream : Nat → Block) (fuel : Nat) :
    ∀ (k i : Nat) (used : List Block) (r : List (Block × Block)),
      initialize_encodings fuel stream k i used = some r →
      used.toFinset.card + 2 * k ≤ 64 := by
  intro k
  induction k with
  | zero =>
    intro i used r _
    have h1 : used.toFinset.card ≤ Fintype.card Block := Finset.card_le_univ _
    rw [card_block] at h1
    omega
  | succ m ih =>
    intro i used r h
    rw [show initialize_encodings fuel stream (m + 1) i used =
        ((findBlockFuel fuel stream i used).bind fun pi =>
          (findBlockFuel fuel stream pi.2 used).bind fun ni =>
            (initialize_encodings fuel stream m ni.2
                (pi.1 :: complementB pi.1 :: ni.1 :: complementB ni.1 :: used)).bind
              fun rest => some ((pi.1, ni.1) :: rest)) from rfl] at h
    rw [Option.bind_eq_some] at h
    obtain ⟨⟨pos, i1⟩, hp, h⟩ := h
    rw [Option.bind_eq_some] at h
    obtain ⟨⟨neg, i2⟩, hq, h⟩ := h
    rw [Option.bind_eq_some] at h
    obtain ⟨rest, hrec, _⟩ := h
    dsimp only at hrec
    have hcard := ih i2 _ rest hrec
    have hvpos := findBlockFuel_some_valid stream fuel i used pos i1 hp
    obtain ⟨hnp, hncp⟩ := is_valid_sequence_not_mem hvpos
    have hncp_fin : complementB pos ∉ used.toFinset := by
      rw [List.mem_toFinset]
      exact hncp
    have hnp_fin : pos ∉ insert (complementB pos) used.toFinset := by
      rw [Finset.mem_insert]
      rintro (heq | hmem)
      · exact complementB_ne_self pos heq.symm
      · rw [List.mem_toFinset] at hmem
        exact hnp hmem
    have hc1 : (insert pos (insert (complementB pos) used.toFinset)).card =
        used.toFinset.card + 2 := by
      rw [Finset.card_insert_of_not_mem hnp_fin,
        Finset.card_insert_of_not_mem hncp_fin]
    have hsub : insert pos (insert (complementB pos) used.toFinset) ⊆
        (pos :: complementB pos :: neg :: complementB neg :: used).toFinset := by
      intro x hx
      rw [Finset.mem_insert, Finset.mem_insert, List.mem_toFinset] at hx
      rw [List.mem_toFinset]
      rcases hx with rfl | rfl | hx
      · exact List.mem_cons_self _ _
      · exact List.mem_cons_of_mem _ (List.mem_cons_self _ _)
      · exact List.mem_cons_of_mem _ (List.mem_cons_of_mem _
          (List.mem_cons_of_mem _ (List.mem_cons_of_mem _ hx)))
    have hle := Finset.card_le_card hsub
    omega

lemma findBlockFuel_none_of_full (stream : Nat → Block) (used : List Block)
    (hfull : ∀ c : Block, c ∈ used) :
    ∀ (fuel i : Nat), findBlockFuel fuel stream i used = none := by
  intro fuel
  induction fuel with
  | zero => intro i; rfl
  | succ f ih =>
    intro i
    have hval : is_valid_sequence (stream i) used = false := by
      unfold is_valid_sequence
      rw [if_pos (hfull (stream i))]
    rw [show findBlockFuel (f + 1) stream i used =
        (if is_valid_sequence (stream i) used = true
          then some (stream i, i + 1)
          else findBlockFuel f stream (i + 1) used) from rfl,
      if_neg (by rw [hval]; exact Bool.noConfusion)]
    exact ih (i + 1)

/-- Claim C5 as amended: the block search has no failure signal — once the
used-block set contains every one of the 64 blocks, no candidate is ever
accepted, for any fuel and any candidate stream (the source loop hangs); and
since each variable adds AT LEAST two blocks (not always four: the negative
search is validated against a used set not yet containing the positive
block, so the two may coincide), exhaustion of the space is guaranteed only
after 32 variables: for every variable count of at least 33, encoding
generation diverges for every candidate stream. -/
theorem C5_unbounded_retry_exhaustion :
    (∀ used : List Block, (∀ c : Block, c ∈ used) →
      ∀ (stream : Nat → Block) (fuel i : Nat),
        findBlockFuel fuel stream i used = none) ∧
      ∀ n : Nat, 33 ≤ n → ∀ (stream : Nat → Block) (fuel i : Nat),
        initialize_encodings fuel stream n i [] = none := by
  constructor
  · intro used hfull stream fuel i
    exact findBlockFuel_none_of_full stream used hfull fuel i
  · intro n hn stream fuel i
    cases h : initialize_encodings fuel stream n i [] with
    | none => rfl
    | some r =>
      have hcard := initialize_encodings_card stream fuel n i [] r h
      simp at hcard
      omega

/-- The 0..3 digits mapped onto the alphabet, for concrete enumerations. -/
def baseOfNat : Nat → Base
  | 0 => Base.A
  | 1 => Base.C
  | 2 => Base.G
  | _ => Base.T

/-- The j-th of the 64 blocks (base-4 digits of j). -/
def blockOfNat (j : Nat) : Block :=
  (baseOfNat (j / 16), baseOfNat (j / 4 % 4), baseOfNat (j % 4))

/-- All 64 blocks. -/
def allBlocks : List Block := (List.range 64).map blockOfNat

/-- Witness for C5: with every block already used, a search with fuel 3 finds
nothing; and for 33 variables, generation with any fixed stream returns
`none`. -/
theorem C5_witness :
    findBlockFuel 3 (fun _ => ((Base.A, Base.A, Base.A) : Block)) 0 allBlocks =
        none ∧
      initialize_encodings 1 (fun _ => ((Base.A, Base.A, Base.A) : Block))
        33 0 [] = none :=
  ⟨C5_unbounded_retry_exhaustion.1 allBlocks (by decide)
      (fun _ => ((Base.A, Base.A, Base.A) : Block)) 3 0,
   C5_unbounded_retry_exhaustion.2 33 (by decide)
      (fun _ => ((Base.A, Base.A, Base.A) : Block)) 1 0⟩

/-- A candidate stream under which generation for 17 variables terminates:
each variable's two draws repeat the same fresh block (the repeat is
accepted, because the positive block is not yet in the used set), so after
16 variables only 32 of the 64 blocks are excluded and the 33rd search still
succeeds. -/
def stream17 (j : Nat) : Block :=
  if j / 2 < 16 then (Base.A, baseOfNat (j / 2 / 4), baseOfNat (j / 2 % 4))
  else (Base.C, Base.A, Base.A)

/-- Claim C5, counterexample to the claim as stated: encoding generation for
n = 17 variables CAN terminate (the 33rd accepted block exists), because 32
accepted blocks need not exclude the whole 64-block space — refuting
"provably happens after 32 blocks have been accepted, i.e. for n >= 17". -/
theorem C5_counterexample :
    (initialize_encodings 1 stream17 17 0 []).isSome = true := by
  decide

/-- Claim C6, evaluated at the failing input: for one variable and a
candidate stream that draws `AAA` twice, generation terminates and assigns
the SAME block `AAA` to the positive and the negative literal — `used` is
updated only after both searches, so the negative draw is not checked
against the positive block.  The claimed invariant (2n pairwise distinct
blocks, none equal to a complement of another) fails. -/
theorem C6_duplicate_pair_accepted :
    initialize_encodings 1 (fun _ => ((Base.A, Base.A, Base.A) : Block))
        1 0 [] =
      some [((Base.A, Base.A, Base.A), (Base.A, Base.A, Base.A))] := rfl

end ThreeSAT
